import Mathlib

/-!
Verification development for the realtime CLI client in `src/main.go`.

The embedding below translates the protocol engine of the program:

* a JSON value model and a JSON text decoder mirroring the behaviour of
  Go's `encoding/json.Unmarshal` as used by the program (decoding a frame
  into a generic string-keyed map, and decoding tool-call arguments into a
  struct with two `float64` fields tagged `a` and `b`);
* `startReader` (main.go lines 138-171): the background reader loop,
  modelled as a function over the list of inbound frames it consumes;
* `waitForEventTypeFromChan` (lines 173-192);
* `streamAssistantTextFromChan` (lines 194-278): the response streamer,
  modelled as a step function over the decoded event together with an
  explicit state (accumulated text, follow-up flag, per-call argument
  buffers, and the `function_call_output` items sent so far).

Modelling conventions: Go `float64` JSON numbers are modelled as exact
rationals (no claim below depends on floating-point rounding); console
printing (`fmt.Print`) is a side effect outside the embedding, though the
`printedWithNoTool` flag itself is kept; `sendFunctionOutput` writes are
modelled as always succeeding and are recorded in the `sent` list, with
the `%g` output formatting abstracted to the rational result; channels are
modelled as the list of values delivered, with an explicit marker for what
ends the stream (queue closure or context expiry).
-/

/-- A JSON value, the model of what `encoding/json` decodes a frame into.
Numbers are modelled as exact rationals. -/
inductive Json where
  | null
  | bool (b : Bool)
  | num (q : ℚ)
  | str (s : String)
  | arr (elems : List Json)
  | obj (fields : List (String × Json))

/-- Last-wins lookup of a key in a decoded object, matching Go's map
semantics for duplicate keys (the later entry overwrites the earlier). -/
def lookupLast (fields : List (String × Json)) (k : String) : Option Json :=
  match fields with
  | [] => none
  | (k2, v) :: rest =>
    match lookupLast rest k with
    | some r => some r
    | none => if k2 = k then some v else none

/-- Field access on a decoded event, `evt["k"]`. -/
def jsonGet (j : Json) (k : String) : Option Json :=
  match j with
  | .obj fields => lookupLast fields k
  | _ => none

/-- The Go pattern `v, ok := evt["k"].(string)`: the field must exist and
hold a string, otherwise `none`. -/
def getStr (j : Json) (k : String) : Option String :=
  match jsonGet j k with
  | some (.str s) => some s
  | _ => none

/-- JSON whitespace. -/
def isJsonWS (c : Char) : Bool :=
  c = ' ' || c = '\t' || c = '\n' || c = '\r'

/-- Skip JSON whitespace. -/
def skipWS : List Char → List Char
  | [] => []
  | c :: rest => if isJsonWS c then skipWS rest else c :: rest

/-- Greedily take decimal digits. -/
def takeDigits : List Char → List Char × List Char
  | [] => ([], [])
  | c :: rest =>
    if c.isDigit then
      let p := takeDigits rest
      (c :: p.1, p.2)
    else ([], c :: rest)

/-- Decimal digits to a natural number. -/
def digitsToNat (ds : List Char) : Nat :=
  ds.foldl (fun a c => 10 * a + (c.toNat - 48)) 0

/-- Assemble a JSON number from sign, integer part, fraction digits and
exponent, as an exact rational. -/
def makeNum (neg : Bool) (ip : Nat) (fp : List Char) (expNeg : Bool) (ev : Nat) : ℚ :=
  let mant : Nat := ip * 10 ^ fp.length + digitsToNat fp
  let signed : Int := if neg then -(mant : Int) else (mant : Int)
  let base : ℚ := mkRat signed (10 ^ fp.length)
  if expNeg then base / ((10 : ℚ) ^ ev) else base * ((10 : ℚ) ^ ev)

/-- Parse the optional fraction part `.digits` of a number; `some ([], cs)`
when absent. -/
def parseFracPart (cs : List Char) : Option (List Char × List Char) :=
  match cs with
  | '.' :: rest =>
    match rest with
    | c :: _ =>
      if c.isDigit then some (takeDigits rest) else none
    | [] => none
  | _ => some ([], cs)

/-- Parse the exponent body after `e`/`E`: optional sign then digits. -/
def parseExpAfterE (cs : List Char) : Option (Bool × Nat × List Char) :=
  let p : Bool × List Char :=
    match cs with
    | '+' :: r => (false, r)
    | '-' :: r => (true, r)
    | _ => (false, cs)
  match p.2 with
  | c :: _ =>
    if c.isDigit then
      let q := takeDigits p.2
      some (p.1, digitsToNat q.1, q.2)
    else none
  | [] => none

/-- Parse the optional exponent part of a number; `(false, 0, cs)` when
absent. -/
def parseExpPart (cs : List Char) : Option (Bool × Nat × List Char) :=
  match cs with
  | 'e' :: rest => parseExpAfterE rest
  | 'E' :: rest => parseExpAfterE rest
  | _ => some (false, 0, cs)

/-- Parse a JSON number per the strict JSON grammar (no leading zeros, no
bare `-`, fraction and exponent digits required when the marker appears). -/
def parseNumber (cs : List Char) : Option (ℚ × List Char) :=
  let p : Bool × List Char :=
    match cs with
    | '-' :: rest => (true, rest)
    | _ => (false, cs)
  match p.2 with
  | '0' :: rest => parseNumTail p.1 0 rest
  | c :: rest =>
    if c.isDigit then
      let q := takeDigits rest
      parseNumTail p.1 (digitsToNat (c :: q.1)) q.2
    else none
  | [] => none
where
  parseNumTail (neg : Bool) (ip : Nat) (cs : List Char) : Option (ℚ × List Char) :=
    match parseFracPart cs with
    | none => none
    | some (fp, cs2) =>
      match parseExpPart cs2 with
      | none => none
      | some (expNeg, ev, cs3) => some (makeNum neg ip fp expNeg ev, cs3)

/-- Single-character escapes inside a JSON string. -/
def escChar (c : Char) : Option Char :=
  if c = '"' then some '"'
  else if c = '\\' then some '\\'
  else if c = '/' then some '/'
  else if c = 'b' then some (Char.ofNat 8)
  else if c = 'f' then some (Char.ofNat 12)
  else if c = 'n' then some '\n'
  else if c = 'r' then some '\r'
  else if c = 't' then some '\t'
  else none

/-- Hex digit value. -/
def hexDigit (c : Char) : Option Nat :=
  if c.isDigit then some (c.toNat - 48)
  else if 'a' ≤ c && c ≤ 'f' then some (c.toNat - 87)
  else if 'A' ≤ c && c ≤ 'F' then some (c.toNat - 55)
  else none

/-- Character denoted by a `\uXXXX` escape.  Go's decoder replaces invalid
surrogate escapes with U+FFFD; surrogate-pair combination is not modelled
(no claim exercises it). -/
def uniChar (n : Nat) : Char :=
  if 0xD800 ≤ n && n ≤ 0xDFFF then Char.ofNat 0xFFFD else Char.ofNat n

/-- Parse the body of a JSON string after the opening quote, returning the
decoded characters and the rest of the input.  `fuel` bounds recursion and
is in practice at least the input length plus one. -/
def parseStringAux : Nat → List Char → Option (List Char × List Char)
  | 0, _ => none
  | _, [] => none
  | fuel + 1, c :: rest =>
    if c = '"' then some ([], rest)
    else if c = '\\' then
      match rest with
      | 'u' :: h1 :: h2 :: h3 :: h4 :: rest2 =>
        match hexDigit h1, hexDigit h2, hexDigit h3, hexDigit h4 with
        | some a, some b, some c2, some d =>
          match parseStringAux fuel rest2 with
          | some (s, r) => some (uniChar (4096 * a + 256 * b + 16 * c2 + d) :: s, r)
          | none => none
        | _, _, _, _ => none
      | e :: rest2 =>
        match escChar e with
        | some ec =>
          match parseStringAux fuel rest2 with
          | some (s, r) => some (ec :: s, r)
          | none => none
        | none => none
      | [] => none
    else if c.toNat < 32 then none
    else
      match parseStringAux fuel rest with
      | some (s, r) => some (c :: s, r)
      | none => none

mutual

/-- Parse one JSON value.  `fuel` bounds the nesting recursion and is in
practice at least the input length plus one. -/
def parseVal : Nat → List Char → Option (Json × List Char)
  | 0, _ => none
  | fuel + 1, cs =>
    match skipWS cs with
    | 'n' :: 'u' :: 'l' :: 'l' :: rest => some (.null, rest)
    | 't' :: 'r' :: 'u' :: 'e' :: rest => some (.bool true, rest)
    | 'f' :: 'a' :: 'l' :: 's' :: 'e' :: rest => some (.bool false, rest)
    | '"' :: rest =>
      match parseStringAux (rest.length + 1) rest with
      | some (s, r) => some (.str (String.mk s), r)
      | none => none
    | '\x7b' :: rest =>
      match skipWS rest with
      | '\x7d' :: r => some (.obj [], r)
      | cs2 =>
        match parseMembers fuel cs2 with
        | some (fs, r) => some (.obj fs, r)
        | none => none
    | '[' :: rest =>
      match skipWS rest with
      | ']' :: r => some (.arr [], r)
      | cs2 =>
        match parseElems fuel cs2 with
        | some (xs, r) => some (.arr xs, r)
        | none => none
    | cs2 =>
      match parseNumber cs2 with
      | some (q, r) => some (.num q, r)
      | none => none

/-- Parse the members of a JSON object, positioned at the first key. -/
def parseMembers : Nat → List Char → Option (List (String × Json) × List Char)
  | 0, _ => none
  | fuel + 1, cs =>
    match skipWS cs with
    | '"' :: rest =>
      match parseStringAux (rest.length + 1) rest with
      | some (k, rest1) =>
        match skipWS rest1 with
        | ':' :: rest2 =>
          match parseVal fuel rest2 with
          | some (v, rest3) =>
            match skipWS rest3 with
            | ',' :: rest4 =>
              match parseMembers fuel rest4 with
              | some (fs, rest5) => some ((String.mk k, v) :: fs, rest5)
              | none => none
            | '\x7d' :: rest4 => some ([(String.mk k, v)], rest4)
            | _ => none
          | none => none
        | _ => none
      | none => none
    | _ => none

/-- Parse the elements of a JSON array, positioned at the first element. -/
def parseElems : Nat → List Char → Option (List Json × List Char)
  | 0, _ => none
  | fuel + 1, cs =>
    match parseVal fuel cs with
    | some (v, rest) =>
      match skipWS rest with
      | ',' :: rest2 =>
        match parseElems fuel rest2 with
        | some (xs, rest3) => some (v :: xs, rest3)
        | none => none
      | ']' :: rest2 => some ([v], rest2)
      | _ => none
    | none => none

end

/-- Decode a complete JSON text: one value with only whitespace after it. -/
def parseJsonText (s : String) : Option Json :=
  match parseVal (s.data.length + 1) s.data with
  | some (v, rest) => if skipWS rest = [] then some v else none
  | none => none

/-- The argument struct for the multiply tool (main.go lines 249-252):
`struct \x7b A, B float64 \x7d` with JSON tags `a` and `b`, zero-valued by
default as in Go. -/
structure MultiplyArgs where
  a : ℚ := 0
  b : ℚ := 0
deriving DecidableEq, Repr

/-- Apply one decoded object field to the argument struct, following Go's
`encoding/json` field matching: the tag is matched case-insensitively,
a JSON number sets the field, JSON `null` is a no-op, any other value is a
type error, and unknown keys are ignored. -/
def setField (args : MultiplyArgs) (k : String) (v : Json) : Except String MultiplyArgs :=
  if k.toLower = "a" then
    match v with
    | .num q => .ok { args with a := q }
    | .null => .ok args
    | _ => .error "cannot unmarshal value into field a"
  else if k.toLower = "b" then
    match v with
    | .num q => .ok { args with b := q }
    | .null => .ok args
    | _ => .error "cannot unmarshal value into field b"
  else .ok args

/-- Apply the decoded object fields in order (later duplicates win). -/
def applyFields (args : MultiplyArgs) : List (String × Json) → Except String MultiplyArgs
  | [] => .ok args
  | (k, v) :: rest =>
    match setField args k v with
    | .ok args2 => applyFields args2 rest
    | .error e => .error e

/-- The model of `json.Unmarshal([]byte(argsJSON), &args)` at main.go line
254: malformed JSON is an error, a top-level `null` leaves the zero struct,
a top-level non-object is a type error, and an object sets whichever of
`a`/`b` it carries — a missing field keeps its zero value and is NOT an
error. -/
def unmarshalArgs (s : String) : Except String MultiplyArgs :=
  match parseJsonText s with
  | none => .error "invalid JSON"
  | some .null => .ok {}
  | some (.obj fs) => applyFields {} fs
  | some _ => .error "cannot unmarshal non-object into args struct"

/-- The local tool, main.go line 281. -/
def multiply (a b : ℚ) : ℚ := a * b

/-- The tool parameter schema advertised to the server at session start,
main.go lines 97-104.  Note the schema lists both `a` and `b` as required;
the program itself never validates arguments against it. -/
def multiplyToolParameters : Json :=
  .obj [("type", .str "object"),
        ("properties",
          .obj [("a", .obj [("type", .str "number")]),
                ("b", .obj [("type", .str "number")])]),
        ("required", .arr [.str "a", .str "b"])]

/-- One iteration's input to the reader loop: either `c.Read` yields a
frame's bytes, or it fails (transport error, peer close, or cancellation —
the loop's own `ctx.Done()` check is modelled as a failing read). -/
inductive Frame where
  | msg (data : String)
  | recvFail (e : String)

/-- An entry on the reader's error channel. -/
inductive ReadErr where
  | decodeError (e : String)
  | recvError (e : String)

/-- What the reader loop produced over a list of frames: the events
published in order, the errors reported in order, and whether the loop
terminated (closing both channels). -/
structure ReaderResult where
  events : List Json
  errs : List ReadErr
  closed : Bool

/-- The model of `json.Unmarshal(data, &evt)` into `map[string]any` at
main.go lines 160-164: only a JSON object (or `null`, which leaves a nil
map) decodes; anything else is a decode error. -/
def decodeEvent (data : String) : Except String Json :=
  match parseJsonText data with
  | none => .error "reader json unmarshal failed"
  | some (.obj fs) => .ok (.obj fs)
  | some .null => .ok .null
  | some _ => .error "reader json unmarshal failed"

/-- The reader goroutine of main.go lines 138-171, as a function of the
frames it consumes: a decode failure reports on the error channel and
continues; a read failure reports and terminates, closing both channels;
if the input list ends without a read failure the loop is still running. -/
def startReader : List Frame → ReaderResult
  | [] => ⟨[], [], false⟩
  | .recvFail e :: _ => ⟨[], [.recvError e], true⟩
  | .msg d :: rest =>
    match decodeEvent d with
    | .error m =>
      let r := startReader rest
      ⟨r.events, .decodeError m :: r.errs, r.closed⟩
    | .ok evt =>
      let r := startReader rest
      ⟨evt :: r.events, r.errs, r.closed⟩

/-- How a modelled wait or stream runs out of events: the events channel
was closed by the reader, or the bounded context expired. -/
inductive ChanEnd where
  | closed
  | timeout

/-- The failure modes of `waitForEventTypeFromChan`, main.go lines 173-192. -/
inductive WaitErr where
  | timeout (expected : String)
  | closed (expected : String)
  | serverError (evt : Json)

/-- `waitForEventTypeFromChan` (main.go lines 173-192) over the list of
events delivered before the channel ends: skip events of other types,
fail on a server `error` event (embedding the event), succeed on the
expected type, and otherwise fail according to how the channel ended. -/
def waitForEventTypeFromChan : List Json → ChanEnd → String → Option WaitErr
  | [], .closed, t => some (.closed t)
  | [], .timeout, t => some (.timeout t)
  | evt :: rest, en, t =>
    let typ := (getStr evt "type").getD ""
    if typ = "error" then some (.serverError evt)
    else if typ = t then none
    else waitForEventTypeFromChan rest en t

/-- The state of one response cycle inside `streamAssistantTextFromChan`:
the accumulated text `full`, the `needFollowUp` and `printedWithNoTool`
flags, the per-call argument buffers `argBuf`, and the
`function_call_output` items sent so far (call id and computed result). -/
structure StreamState where
  full : String
  needFollowUp : Bool
  printedWithNoTool : Bool
  argBuf : List (String × String)
  sent : List (String × ℚ)

/-- The failure modes of `streamAssistantTextFromChan`. -/
inductive StreamErr where
  | timeout
  | channelClosed
  | serverError (evt : Json)
  | badArgs (msg : String)

/-- What `streamAssistantTextFromChan` returns: the accumulated text, the
follow-up flag, the outputs sent during the cycle, and the error if any. -/
structure StreamResult where
  full : String
  needFollowUp : Bool
  sent : List (String × ℚ)
  err : Option StreamErr

/-- Lookup in the argument-buffer map (`argBuf[callID]`).  Keys are unique
by construction, so first match models the Go map. -/
def bufGet (buf : List (String × String)) (k : String) : Option String :=
  match buf with
  | [] => none
  | (k2, v) :: rest => if k2 = k then some v else bufGet rest k

/-- Append `v` to the builder for `k`, creating the entry if absent
(main.go lines 233-238). -/
def bufAppend (buf : List (String × String)) (k v : String) : List (String × String) :=
  match buf with
  | [] => [(k, v)]
  | (k2, v2) :: rest =>
    if k2 = k then (k2, v2 ++ v) :: rest else (k2, v2) :: bufAppend rest k v

/-- `delete(argBuf, callID)`, main.go line 266. -/
def bufErase (buf : List (String × String)) (k : String) : List (String × String) :=
  match buf with
  | [] => []
  | (k2, v) :: rest => if k2 = k then rest else (k2, v) :: bufErase rest k

/-- Resolution of the final argument text on a `done` event (main.go lines
242-247): use the event's own `arguments` string when non-empty, else the
call's buffer when present, else the empty string. -/
def resolveArgs (st : StreamState) (evt : Json) : String :=
  let argsJSON := (getStr evt "arguments").getD ""
  if argsJSON = "" then
    match bufGet st.argBuf ((getStr evt "call_id").getD "") with
    | some b => b
    | none => ""
  else argsJSON

/-- One iteration of the event loop in `streamAssistantTextFromChan`
(main.go lines 210-275) on a delivered event: either the loop continues
with an updated state, or the function returns a result. -/
def streamStep (st : StreamState) (evt : Json) : StreamState ⊕ StreamResult :=
  let typ := (getStr evt "type").getD ""
  if typ = "error" then
    .inr ⟨st.full, st.needFollowUp, st.sent, some (.serverError evt)⟩
  else if typ = "response.text.delta" then
    match getStr evt "delta" with
    | some d => .inl { st with full := st.full ++ d, printedWithNoTool := true }
    | none => .inl st
  else if typ = "response.function_call_arguments.delta" then
    let callID := (getStr evt "call_id").getD ""
    let delta := (getStr evt "delta").getD ""
    if callID = "" ∨ delta = "" then .inl st
    else .inl { st with argBuf := bufAppend st.argBuf callID delta }
  else if typ = "response.function_call_arguments.done" then
    let callID := (getStr evt "call_id").getD ""
    match unmarshalArgs (resolveArgs st evt) with
    | .error m => .inr ⟨st.full, st.needFollowUp, st.sent, some (.badArgs m)⟩
    | .ok args =>
      .inl { st with argBuf := bufErase st.argBuf callID,
                     sent := st.sent ++ [(callID, multiply args.a args.b)],
                     needFollowUp := true }
  else if typ = "response.text.done" ∨ typ = "response.done" then
    .inr ⟨st.full, st.needFollowUp, st.sent, none⟩
  else .inl st

/-- Run the loop over the delivered events until it returns or runs out. -/
def streamExec (st : StreamState) : List Json → StreamState ⊕ StreamResult
  | [] => .inl st
  | evt :: rest =>
    match streamStep st evt with
    | .inl st2 => streamExec st2 rest
    | .inr r => .inr r

/-- The result when the events run out before a terminal marker: channel
closure (main.go lines 205-208) or context expiry (lines 202-203). -/
def endResult (st : StreamState) : ChanEnd → StreamResult
  | .closed => ⟨st.full, st.needFollowUp, st.sent, some .channelClosed⟩
  | .timeout => ⟨st.full, st.needFollowUp, st.sent, some .timeout⟩

/-- The initial state of a response cycle, main.go lines 195-198. -/
def initState : StreamState := ⟨"", false, false, [], []⟩

/-- `streamAssistantTextFromChan` (main.go lines 194-278) over the list of
events delivered during the cycle and the way the channel ends. -/
def streamAssistantTextFromChan (events : List Json) (en : ChanEnd) : StreamResult :=
  match streamExec initState events with
  | .inl st => endResult st en
  | .inr r => r

/-- A `response.text.delta` event carrying text `d`. -/
def mkTextDelta (d : String) : Json :=
  .obj [("type", .str "response.text.delta"), ("delta", .str d)]

/-- A `response.function_call_arguments.delta` event for call `c` with
fragment `d`. -/
def mkArgDelta (c d : String) : Json :=
  .obj [("type", .str "response.function_call_arguments.delta"),
        ("call_id", .str c), ("delta", .str d)]

/-- A `response.function_call_arguments.done` event for call `c` whose
`arguments` string is `a` (the empty string models an absent field, which
the program reads identically). -/
def mkArgsDone (c a : String) : Json :=
  .obj [("type", .str "response.function_call_arguments.done"),
        ("call_id", .str c), ("arguments", .str a)]

/-- A `response.done` completion marker. -/
def mkRespDone : Json := .obj [("type", .str "response.done")]

/-- A server `error` event with a diagnostic payload. -/
def mkErrorEvt (code : String) : Json :=
  .obj [("type", .str "error"), ("code", .str code)]

/-- Concatenation of a list of strings in order, the d1 ++ … ++ dn of the
specification. -/
def strJoin : List String → String
  | [] => ""
  | s :: rest => s ++ strJoin rest

/-! ### Basic string and buffer lemmas -/

theorem strAppend_empty (s : String) : s ++ "" = s := by
  cases s with
  | mk data => exact congrArg String.mk (List.append_nil data)

theorem strAppend_assoc (a b c : String) : a ++ b ++ c = a ++ (b ++ c) := by
  cases a with | mk x => cases b with | mk y => cases c with | mk z =>
    exact congrArg String.mk (List.append_assoc x y z)

theorem bufGet_append_self (buf : List (String × String)) (k v : String) :
    bufGet (bufAppend buf k v) k = some ((bufGet buf k).getD "" ++ v) := by
  induction buf with
  | nil => simp [bufGet, bufAppend]
  | cons p rest ih =>
    by_cases h : p.1 = k
    · simp [bufGet, bufAppend, h]
    · simp [bufGet, bufAppend, h, ih]

theorem bufGet_append_other (buf : List (String × String)) (k v k2 : String)
    (h : k2 ≠ k) : bufGet (bufAppend buf k v) k2 = bufGet buf k2 := by
  induction buf with
  | nil => simp [bufGet, bufAppend, Ne.symm h]
  | cons p rest ih =>
    by_cases hp : p.1 = k
    · subst hp
      simp [bufGet, bufAppend, Ne.symm h]
    · by_cases hp2 : p.1 = k2 <;> simp [bufGet, bufAppend, hp, hp2, h, ih]

theorem bufGet_erase_other (buf : List (String × String)) (k k2 : String)
    (h : k2 ≠ k) : bufGet (bufErase buf k) k2 = bufGet buf k2 := by
  induction buf with
  | nil => simp [bufGet, bufErase]
  | cons p rest ih =>
    by_cases hp : p.1 = k
    · subst hp
      simp [bufGet, bufErase, Ne.symm h]
    · by_cases hp2 : p.1 = k2 <;> simp [bufGet, bufErase, hp, hp2, h, ih]

/-! ### Step-level characterisations of the streamer loop -/

theorem streamStep_mkTextDelta (st : StreamState) (d : String) :
    streamStep st (mkTextDelta d)
      = .inl { st with full := st.full ++ d, printedWithNoTool := true } := rfl

theorem streamStep_mkArgDelta (st : StreamState) (c d : String) :
    streamStep st (mkArgDelta c d)
      = if c = "" ∨ d = "" then .inl st
        else .inl { st with argBuf := bufAppend st.argBuf c d } := rfl

theorem streamStep_mkArgsDone (st : StreamState) (c a : String) :
    streamStep st (mkArgsDone c a)
      = match unmarshalArgs (resolveArgs st (mkArgsDone c a)) with
        | .error m => .inr ⟨st.full, st.needFollowUp, st.sent, some (.badArgs m)⟩
        | .ok args =>
          .inl { st with argBuf := bufErase st.argBuf c,
                         sent := st.sent ++ [(c, multiply args.a args.b)],
                         needFollowUp := true } := rfl

theorem streamStep_mkRespDone (st : StreamState) :
    streamStep st mkRespDone = .inr ⟨st.full, st.needFollowUp, st.sent, none⟩ := rfl

theorem streamStep_textDelta (st : StreamState) (e : Json) (d : String)
    (h1 : getStr e "type" = some "response.text.delta")
    (h2 : getStr e "delta" = some d) :
    streamStep st e = .inl { st with full := st.full ++ d, printedWithNoTool := true } := by
  unfold streamStep
  rw [h1]
  simp [h2]

theorem streamStep_errorEvt (st : StreamState) (e : Json)
    (h : getStr e "type" = some "error") :
    streamStep st e = .inr ⟨st.full, st.needFollowUp, st.sent, some (.serverError e)⟩ := by
  unfold streamStep
  rw [h]
  simp

theorem streamStep_doneMarker (st : StreamState) (e : Json)
    (h : getStr e "type" = some "response.text.done" ∨ getStr e "type" = some "response.done") :
    streamStep st e = .inr ⟨st.full, st.needFollowUp, st.sent, none⟩ := by
  unfold streamStep
  rcases h with h | h <;> rw [h] <;> simp

theorem streamStep_doneEvt (st : StreamState) (evt : Json)
    (h : getStr evt "type" = some "response.function_call_arguments.done") :
    streamStep st evt
      = match unmarshalArgs (resolveArgs st evt) with
        | .error m => .inr ⟨st.full, st.needFollowUp, st.sent, some (.badArgs m)⟩
        | .ok args =>
          .inl { st with argBuf := bufErase st.argBuf ((getStr evt "call_id").getD ""),
                         sent := st.sent ++ [((getStr evt "call_id").getD "", multiply args.a args.b)],
                         needFollowUp := true } := by
  unfold streamStep
  rw [h]
  simp

/-! ### Run-level lemmas -/

theorem streamExec_append (st : StreamState) (a b : List Json) :
    streamExec st (a ++ b)
      = match streamExec st a with
        | .inl st2 => streamExec st2 b
        | .inr r => .inr r := by
  induction a generalizing st with
  | nil => simp [streamExec]
  | cons e rest ih =>
    simp only [List.cons_append, streamExec]
    cases streamStep st e with
    | inl st2 => exact ih st2
    | inr r => rfl

/-- Processing a run of text-delta events appends their concatenation to
the accumulated text and touches nothing else (except the printed flag). -/
theorem streamExec_textDeltas (es : List Json) (ds : List String) (st : StreamState)
    (hlen : es.length = ds.length)
    (hpt : ∀ p ∈ es.zip ds,
      getStr p.1 "type" = some "response.text.delta" ∧ getStr p.1 "delta" = some p.2) :
    ∃ pr : Bool,
      streamExec st es
        = .inl ⟨st.full ++ strJoin ds, st.needFollowUp, pr, st.argBuf, st.sent⟩ := by
  induction es generalizing ds st with
  | nil =>
    cases ds with
    | nil =>
      refine ⟨st.printedWithNoTool, ?_⟩
      simp [streamExec, strJoin, strAppend_empty]
    | cons d ds2 => simp at hlen
  | cons e rest ih =>
    cases ds with
    | nil => simp at hlen
    | cons d ds2 =>
      have he := hpt (e, d) (by simp [List.zip_cons_cons])
      have hstep := streamStep_textDelta st e d he.1 he.2
      have hrest : ∀ p ∈ rest.zip ds2,
          getStr p.1 "type" = some "response.text.delta" ∧ getStr p.1 "delta" = some p.2 := by
        intro p hp
        apply hpt p
        rw [List.zip_cons_cons]
        exact List.mem_cons_of_mem _ hp
      obtain ⟨pr, hex⟩ := ih ds2 { st with full := st.full ++ d, printedWithNoTool := true }
        (by simpa using hlen) hrest
      refine ⟨pr, ?_⟩
      simp only [streamExec, hstep, hex, strJoin]
      rw [strAppend_assoc]

/-- The effect on a call's buffer of a run of argument deltas for that
call: fold each non-empty fragment into the buffer. -/
def bufAccum (C : String) (buf : List (String × String)) (fs : List String) :
    List (String × String) :=
  fs.foldl (fun b f => if f = "" then b else bufAppend b C f) buf

/-- Processing argument deltas for one call id folds the fragments into
that call's buffer and touches nothing else. -/
theorem streamExec_argDeltasC (C : String) (hC : C ≠ "") (fs : List String)
    (st : StreamState) :
    streamExec st (fs.map (fun f => mkArgDelta C f))
      = .inl { st with argBuf := bufAccum C st.argBuf fs } := by
  induction fs generalizing st with
  | nil => simp [streamExec, bufAccum]
  | cons f fs ih =>
    by_cases hf : f = ""
    · subst hf
      simp only [List.map_cons, streamExec, streamStep_mkArgDelta, hC, bufAccum,
        List.foldl_cons, if_pos rfl, or_true, if_true]
      simpa [bufAccum] using ih st
    · simp only [List.map_cons, streamExec, streamStep_mkArgDelta, hC, hf, or_self,
        if_false, bufAccum, List.foldl_cons, if_neg hf]
      simpa [bufAccum] using ih { st with argBuf := bufAppend st.argBuf C f }

/-- Processing interleaved argument deltas (all with non-empty call id and
fragment) folds each fragment into its own call's buffer, in order. -/
theorem streamExec_argDeltasPS (ps : List (String × String)) (st : StreamState)
    (h : ∀ p ∈ ps, p.1 ≠ "" ∧ p.2 ≠ "") :
    streamExec st (ps.map (fun p => mkArgDelta p.1 p.2))
      = .inl { st with argBuf := ps.foldl (fun b p => bufAppend b p.1 p.2) st.argBuf } := by
  induction ps generalizing st with
  | nil => simp [streamExec]
  | cons p ps ih =>
    have hp := h p (List.mem_cons_self p ps)
    simp only [List.map_cons, streamExec, streamStep_mkArgDelta, hp.1, hp.2, or_self,
      if_false, List.foldl_cons]
    exact ih { st with argBuf := bufAppend st.argBuf p.1 p.2 }
      (fun q hq => h q (List.mem_cons_of_mem _ hq))

/-- The buffer for `D` after folding fragments for several calls holds its
previous content followed by exactly the fragments tagged `D`, in order. -/
theorem bufGet_foldPS (D : String) (ps : List (String × String)) :
    ∀ buf : List (String × String),
      (bufGet (ps.foldl (fun b p => bufAppend b p.1 p.2) buf) D).getD ""
        = (bufGet buf D).getD "" ++ strJoin ((ps.filter (fun p => p.1 = D)).map Prod.snd) := by
  induction ps with
  | nil => intro buf; simp [strJoin, strAppend_empty]
  | cons p ps ih =>
    intro buf
    rw [List.foldl_cons, ih (bufAppend buf p.1 p.2)]
    by_cases hD : p.1 = D
    · subst hD
      rw [bufGet_append_self]
      simp [List.filter_cons, strJoin, strAppend_assoc]
    · rw [bufGet_append_other _ _ _ _ (fun hh => hD hh.symm)]
      simp [List.filter_cons, hD]

/-- The buffer entry for `D` exists after the fold exactly when it existed
before or some fragment was tagged `D`. -/
theorem bufGet_foldPS_none (D : String) (ps : List (String × String)) :
    ∀ buf : List (String × String),
      (bufGet (ps.foldl (fun b p => bufAppend b p.1 p.2) buf) D = none
        ↔ bufGet buf D = none ∧ ps.filter (fun p => p.1 = D) = []) := by
  induction ps with
  | nil => intro buf; simp
  | cons p ps ih =>
    intro buf
    rw [List.foldl_cons, ih (bufAppend buf p.1 p.2)]
    by_cases hD : p.1 = D
    · subst hD
      rw [bufGet_append_self]
      simp [List.filter_cons]
    · rw [bufGet_append_other _ _ _ _ (fun hh => hD hh.symm)]
      simp [List.filter_cons, hD]

/-- One step preserves the invariant that a non-empty `sent` list forces
the follow-up flag, both when the loop continues and when it returns. -/
theorem streamStep_followUp (st : StreamState) (e : Json)
    (h : st.sent ≠ [] → st.needFollowUp = true) :
    (∀ st2, streamStep st e = .inl st2 → (st2.sent ≠ [] → st2.needFollowUp = true))
    ∧ (∀ r, streamStep st e = .inr r → (r.sent ≠ [] → r.needFollowUp = true)) := by
  constructor <;> intro x hx <;>
  · simp only [streamStep] at hx
    repeat' split at hx
    all_goals first
      | (injection hx with h2; subst h2; simp_all)
      | simp_all

/-- The whole loop preserves the same invariant. -/
theorem streamExec_followUp (es : List Json) (st : StreamState)
    (h : st.sent ≠ [] → st.needFollowUp = true) :
    (∀ st2, streamExec st es = .inl st2 → (st2.sent ≠ [] → st2.needFollowUp = true))
    ∧ (∀ r, streamExec st es = .inr r → (r.sent ≠ [] → r.needFollowUp = true)) := by
  induction es generalizing st with
  | nil =>
    constructor <;> intro x hx
    · injection hx with h2; subst h2; exact h
    · cases hx
  | cons e rest ih =>
    have hstep := streamStep_followUp st e h
    constructor <;> intro x hx <;> simp only [streamExec] at hx
    · cases hs : streamStep st e with
      | inl st2 =>
        rw [hs] at hx
        exact (ih st2 (hstep.1 st2 hs)).1 x hx
      | inr r => rw [hs] at hx; cases hx
    · cases hs : streamStep st e with
      | inl st2 =>
        rw [hs] at hx
        exact (ih st2 (hstep.1 st2 hs)).2 x hx
      | inr r =>
        rw [hs] at hx
        injection hx with h2
        subst h2
        exact hstep.2 _ hs

theorem strEmpty_append (s : String) : "" ++ s = s := rfl

theorem bufAccum_cons (C : String) (buf : List (String × String)) (f : String)
    (fs : List String) :
    bufAccum C buf (f :: fs)
      = bufAccum C (if f = "" then buf else bufAppend buf C f) fs := rfl

theorem bufAccum_single (C : String) (fs : List String) :
    ∀ s : String, bufAccum C [(C, s)] fs = [(C, s ++ strJoin fs)] := by
  induction fs with
  | nil => intro s; simp [bufAccum, strJoin, strAppend_empty]
  | cons f fs ih =>
    intro s
    by_cases hf : f = ""
    · subst hf
      rw [bufAccum_cons, if_pos rfl, ih s]
      simp [strJoin, strEmpty_append]
    · have hb : bufAppend [(C, s)] C f = [(C, s ++ f)] := by simp [bufAppend]
      rw [bufAccum_cons, if_neg hf, hb, ih (s ++ f)]
      simp [strJoin, strAppend_assoc]

theorem bufAccum_nil (C : String) (fs : List String) :
    (bufGet (bufAccum C [] fs) C).getD "" = strJoin fs
    ∧ bufErase (bufAccum C [] fs) C = [] := by
  induction fs with
  | nil => simp [bufAccum, bufGet, bufErase, strJoin]
  | cons f fs ih =>
    by_cases hf : f = ""
    · subst hf
      rw [bufAccum_cons, if_pos rfl]
      refine ⟨?_, ih.2⟩
      rw [ih.1]
      simp [strJoin, strEmpty_append]
    · have hb : bufAccum C [] (f :: fs) = [(C, f ++ strJoin fs)] := by
        rw [bufAccum_cons, if_neg hf]
        exact bufAccum_single C fs f
      rw [hb]
      simp [bufGet, bufErase, strJoin]

/-- A run of constructed text deltas appends their concatenation. -/
theorem streamExec_mkTextDeltas (ds : List String) (st : StreamState) :
    ∃ pr : Bool,
      streamExec st (ds.map mkTextDelta)
        = .inl ⟨st.full ++ strJoin ds, st.needFollowUp, pr, st.argBuf, st.sent⟩ := by
  induction ds generalizing st with
  | nil =>
    refine ⟨st.printedWithNoTool, ?_⟩
    simp [streamExec, strJoin, strAppend_empty]
  | cons d ds ih =>
    obtain ⟨pr, hex⟩ := ih { st with full := st.full ++ d, printedWithNoTool := true }
    refine ⟨pr, ?_⟩
    simp only [List.map_cons, streamExec, streamStep_mkTextDelta, hex, strJoin]
    rw [strAppend_assoc]

theorem resolveArgs_mkArgsDone_empty (st : StreamState) (c : String) :
    resolveArgs st (mkArgsDone c "") = (bufGet st.argBuf c).getD "" := by
  have h1 : getStr (mkArgsDone c "") "arguments" = some "" := rfl
  have h2 : getStr (mkArgsDone c "") "call_id" = some c := rfl
  cases h : bufGet st.argBuf c <;> simp [resolveArgs, h1, h2, h]

theorem resolveArgs_mkArgsDone_explicit (st : StreamState) (c a : String)
    (ha : a ≠ "") : resolveArgs st (mkArgsDone c a) = a := by
  have h1 : getStr (mkArgsDone c a) "arguments" = some a := rfl
  simp [resolveArgs, h1, ha]

/-- The wait loop skips events that are neither errors nor the expected
type. -/
theorem waitFor_skip (pre rest : List Json) (en : ChanEnd) (t : String)
    (h : ∀ e ∈ pre,
      (getStr e "type").getD "" ≠ "error" ∧ (getStr e "type").getD "" ≠ t) :
    waitForEventTypeFromChan (pre ++ rest) en t
      = waitForEventTypeFromChan rest en t := by
  induction pre with
  | nil => rfl
  | cons e pre ih =>
    have he := h e (List.mem_cons_self e pre)
    simp only [List.cons_append, waitForEventTypeFromChan, if_neg he.1, if_neg he.2]
    exact ih (fun x hx => h x (List.mem_cons_of_mem _ hx))

/-! ### Claim theorems -/

/-- C1 counterexample: a `function_call_arguments.done` event whose
resolved argument text is the JSON object `\x7b"a":3\x7d` — lacking the
field `b` that the advertised schema marks required — is NOT rejected: the
cycle completes with no error and the tool IS invoked, with `b` defaulting
to `0` (the dispatched output is `("call_1", 0)`). -/
theorem spec_C1_counterexample :
    streamAssistantTextFromChan
        [mkArgsDone "call_1" "\x7b\"a\":3\x7d", mkRespDone] ChanEnd.closed
      = ⟨"", true, [("call_1", 0)], none⟩ := by
  with_unfolding_all rfl

/-- C1 (amended): the advertised schema does list `b` as required, and the
well-formed payload `\x7b"a":3,"b":4\x7d` is accepted and dispatched; but a
payload lacking `b` is not rejected — Go's decoder leaves `b` at `0` and
the streamer invokes the tool and completes the cycle without an argument
error.  Argument text the decoder rejects — malformed JSON such as the
empty string, a field type mismatch such as `\x7b"a":"x"\x7d`, or a
non-object top level such as `42` — does terminate the response cycle
with an argument error and no dispatch. -/
theorem spec_C1_argument_validation :
    jsonGet multiplyToolParameters "required" = some (.arr [.str "a", .str "b"])
    ∧ unmarshalArgs "\x7b\"a\":3,\"b\":4\x7d" = .ok ⟨3, 4⟩
    ∧ streamAssistantTextFromChan
        [mkArgsDone "call_1" "\x7b\"a\":3,\"b\":4\x7d", mkRespDone] ChanEnd.closed
      = ⟨"", true, [("call_1", 12)], none⟩
    ∧ streamAssistantTextFromChan
        [mkArgsDone "call_1" "\x7b\"a\":3\x7d", mkRespDone] ChanEnd.closed
      = ⟨"", true, [("call_1", 0)], none⟩
    ∧ streamAssistantTextFromChan [mkArgsDone "call_1" ""] ChanEnd.closed
      = ⟨"", false, [], some (.badArgs "invalid JSON")⟩
    ∧ streamAssistantTextFromChan
        [mkArgsDone "call_1" "\x7b\"a\":\"x\"\x7d"] ChanEnd.closed
      = ⟨"", false, [], some (.badArgs "cannot unmarshal value into field a")⟩
    ∧ streamAssistantTextFromChan [mkArgsDone "call_1" "42"] ChanEnd.closed
      = ⟨"", false, [], some (.badArgs "cannot unmarshal non-object into args struct")⟩ := by
  refine ⟨rfl, ?_, ?_, ?_, ?_, ?_, ?_⟩ <;> with_unfolding_all rfl

/-- C2: on a `function_call_arguments.done` event the final argument text
prefers a non-empty explicit `arguments` string and otherwise falls back
to the call's buffer; a successful parse discards the buffer entry for the
call, dispatches the tool, records a `function_call_output` addressed to
the originating call id, and sets the follow-up flag — so any streamer
run that dispatched at least one tool call reports follow-up required. -/
theorem spec_C2_done_dispatch :
    (∀ (st : StreamState) (evt : Json),
      (getStr evt "arguments").getD "" ≠ "" →
      resolveArgs st evt = (getStr evt "arguments").getD "")
    ∧ (∀ (st : StreamState) (evt : Json) (C : String),
      (getStr evt "arguments").getD "" = "" →
      (getStr evt "call_id").getD "" = C →
      resolveArgs st evt = (bufGet st.argBuf C).getD "")
    ∧ (∀ (st : StreamState) (evt : Json) (C : String) (args : MultiplyArgs),
      getStr evt "type" = some "response.function_call_arguments.done" →
      (getStr evt "call_id").getD "" = C →
      unmarshalArgs (resolveArgs st evt) = .ok args →
      streamStep st evt
        = Sum.inl { st with
            argBuf := bufErase st.argBuf C,
            sent := st.sent ++ [(C, multiply args.a args.b)],
            needFollowUp := true })
    ∧ (∀ (events : List Json) (en : ChanEnd),
      (streamAssistantTextFromChan events en).sent ≠ [] →
      (streamAssistantTextFromChan events en).needFollowUp = true) := by
  refine ⟨?_, ?_, ?_, ?_⟩
  · intro st evt ha
    simp [resolveArgs, ha]
  · intro st evt C ha hc
    subst hc
    cases h : bufGet st.argBuf ((getStr evt "call_id").getD "") <;>
      simp [resolveArgs, ha, h]
  · intro st evt C args hty hc hok
    subst hc
    rw [streamStep_doneEvt st evt hty, hok]
  · intro events en
    have hinv := streamExec_followUp events initState (by intro h; cases h rfl)
    unfold streamAssistantTextFromChan
    cases hex : streamExec initState events with
    | inl st2 =>
      have h2 := hinv.1 st2 hex
      cases en <;> exact h2
    | inr r => exact hinv.2 r hex

/-- C2 witness: a concrete `done` event for `call_1` with explicit
arguments multiplying 6 by 7 dispatches the output addressed to `call_1`
and sets the follow-up flag. -/
theorem spec_C2_witness :
    streamStep initState (mkArgsDone "call_1" "\x7b\"a\":6,\"b\":7\x7d")
      = Sum.inl { initState with
          argBuf := bufErase initState.argBuf "call_1",
          sent := initState.sent ++ [("call_1", multiply 6 7)],
          needFollowUp := true } :=
  spec_C2_done_dispatch.2.2.1 initState
    (mkArgsDone "call_1" "\x7b\"a\":6,\"b\":7\x7d") "call_1" ⟨6, 7⟩
    rfl rfl (by with_unfolding_all rfl)

/-- C3: for any sequence of text-delta events delivered before a
completion marker, the accumulated text returned on completion is exactly
the concatenation of the deltas in delivery order (no tool dispatched, no
error, no follow-up). -/
theorem spec_C3_text_accumulation :
    ∀ (es : List Json) (ds : List String) (doneEvt : Json) (en : ChanEnd),
      es.length = ds.length →
      (∀ p ∈ es.zip ds,
        getStr p.1 "type" = some "response.text.delta"
          ∧ getStr p.1 "delta" = some p.2) →
      (getStr doneEvt "type" = some "response.text.done"
        ∨ getStr doneEvt "type" = some "response.done") →
      streamAssistantTextFromChan (es ++ [doneEvt]) en
        = ⟨strJoin ds, false, [], none⟩ := by
  intro es ds doneEvt en hlen hpt hd
  obtain ⟨pr, hex⟩ := streamExec_textDeltas es ds initState hlen hpt
  unfold streamAssistantTextFromChan
  rw [streamExec_append, hex]
  simp only [streamExec, streamStep_doneMarker _ _ hd]
  rfl

/-- C3 witness: the deltas `"Hello"` and `"! How can I help?"` followed by
`response.done` yield exactly `"Hello! How can I help?"`. -/
theorem spec_C3_witness :
    streamAssistantTextFromChan
        [mkTextDelta "Hello", mkTextDelta "! How can I help?", mkRespDone]
        ChanEnd.closed
      = ⟨"Hello! How can I help?", false, [], none⟩ :=
  spec_C3_text_accumulation
    [mkTextDelta "Hello", mkTextDelta "! How can I help?"]
    ["Hello", "! How can I help?"] mkRespDone ChanEnd.closed
    rfl (by decide) (Or.inr rfl)

/-- C4: when a call's arguments arrive split across several deltas, the
buffer at the `done` event holds exactly the concatenation of the
fragments in delivery order, and the whole cycle behaves identically to
delivering the full argument string as the explicit payload of a single
`done` event. -/
theorem spec_C4_fragmented_args :
    ∀ C : String, C ≠ "" →
      (∀ fs : List String,
        ∃ st : StreamState,
          streamExec initState (fs.map (fun f => mkArgDelta C f)) = Sum.inl st
          ∧ (bufGet st.argBuf C).getD "" = strJoin fs)
      ∧ (∀ (fs : List String) (rest : List Json) (en : ChanEnd),
          streamAssistantTextFromChan
              (fs.map (fun f => mkArgDelta C f) ++ mkArgsDone C "" :: rest) en
            = streamAssistantTextFromChan (mkArgsDone C (strJoin fs) :: rest) en) := by
  intro C hC
  constructor
  · intro fs
    exact ⟨_, streamExec_argDeltasC C hC fs initState, (bufAccum_nil C fs).1⟩
  · intro fs rest en
    unfold streamAssistantTextFromChan
    rw [streamExec_append, streamExec_argDeltasC C hC fs initState]
    simp only [streamExec]
    rw [streamStep_mkArgsDone, streamStep_mkArgsDone]
    rw [resolveArgs_mkArgsDone_empty]
    rw [show ({ initState with argBuf := bufAccum C initState.argBuf fs } : StreamState).argBuf
          = bufAccum C [] fs from rfl]
    rw [(bufAccum_nil C fs).1]
    have hres : resolveArgs initState (mkArgsDone C (strJoin fs)) = strJoin fs := by
      by_cases hj : strJoin fs = ""
      · rw [hj, resolveArgs_mkArgsDone_empty]; rfl
      · exact resolveArgs_mkArgsDone_explicit initState C _ hj
    rw [hres]
    cases hu : unmarshalArgs (strJoin fs) with
    | error m => rfl
    | ok args =>
      simp only []
      rw [(bufAccum_nil C fs).2]
      rfl

/-- C4 witness: the fragments `\x7b"a":6,` and `"b":7\x7d` delivered as two
deltas for `call_1` followed by an empty-payload `done` behave exactly as
one `done` carrying the whole argument string. -/
theorem spec_C4_witness :
    streamAssistantTextFromChan
        ([mkArgDelta "call_1" "\x7b\"a\":6,", mkArgDelta "call_1" "\"b\":7\x7d"]
          ++ mkArgsDone "call_1" "" :: [mkRespDone]) ChanEnd.closed
      = streamAssistantTextFromChan
          (mkArgsDone "call_1" (strJoin ["\x7b\"a\":6,", "\"b\":7\x7d"]) :: [mkRespDone])
          ChanEnd.closed :=
  (spec_C4_fragmented_args "call_1" (by decide)).2
    ["\x7b\"a\":6,", "\"b\":7\x7d"] [mkRespDone] ChanEnd.closed

/-- C5: interleaved argument deltas for two distinct call ids accumulate
into disjoint buffers — each buffer holds exactly the fragments tagged
with its own id, in delivery order, and exists only if such a fragment
arrived — and the two calls are dispatched in the order their `done`
markers arrive (here the later-started call completes first). -/
theorem spec_C5_independent_buffers :
    ∀ D E : String, D ≠ "" → E ≠ "" → D ≠ E →
      (∀ ps : List (String × String),
        (∀ p ∈ ps, (p.1 = D ∨ p.1 = E) ∧ p.2 ≠ "") →
        ∃ st : StreamState,
          streamExec initState (ps.map (fun p => mkArgDelta p.1 p.2)) = Sum.inl st
          ∧ (bufGet st.argBuf D).getD ""
              = strJoin ((ps.filter (fun p => p.1 = D)).map Prod.snd)
          ∧ (bufGet st.argBuf E).getD ""
              = strJoin ((ps.filter (fun p => p.1 = E)).map Prod.snd)
          ∧ (bufGet st.argBuf D = none ↔ ps.filter (fun p => p.1 = D) = [])
          ∧ (bufGet st.argBuf E = none ↔ ps.filter (fun p => p.1 = E) = []))
      ∧ (∀ (sD sE : String) (aD aE : MultiplyArgs),
          sD ≠ "" → sE ≠ "" →
          unmarshalArgs sD = .ok aD → unmarshalArgs sE = .ok aE →
          streamExec initState
              [mkArgDelta D sD, mkArgDelta E sE, mkArgsDone E "", mkArgsDone D ""]
            = Sum.inl ⟨"", true, false, [],
                [(E, multiply aE.a aE.b), (D, multiply aD.a aD.b)]⟩) := by
  intro D E hD hE hDE
  constructor
  · intro ps hps
    have hps2 : ∀ p ∈ ps, p.1 ≠ "" ∧ p.2 ≠ "" := by
      intro p hp
      rcases hps p hp with ⟨hd | he, h2⟩
      · exact ⟨hd ▸ hD, h2⟩
      · exact ⟨he ▸ hE, h2⟩
    refine ⟨_, streamExec_argDeltasPS ps initState hps2, ?_, ?_, ?_, ?_⟩
    · simpa [bufGet, strEmpty_append] using bufGet_foldPS D ps []
    · simpa [bufGet, strEmpty_append] using bufGet_foldPS E ps []
    · simpa [bufGet] using bufGet_foldPS_none D ps []
    · simpa [bufGet] using bufGet_foldPS_none E ps []
  · intro sD sE aD aE hsD hsE hokD hokE
    have s1 : streamStep initState (mkArgDelta D sD)
        = Sum.inl ⟨"", false, false, [(D, sD)], []⟩ := by
      rw [streamStep_mkArgDelta, if_neg (not_or.mpr ⟨hD, hsD⟩)]
      rfl
    have s2 : streamStep ⟨"", false, false, [(D, sD)], []⟩ (mkArgDelta E sE)
        = Sum.inl ⟨"", false, false, [(D, sD), (E, sE)], []⟩ := by
      rw [streamStep_mkArgDelta, if_neg (not_or.mpr ⟨hE, hsE⟩)]
      simp [bufAppend, hDE]
    have s3 : streamStep ⟨"", false, false, [(D, sD), (E, sE)], []⟩ (mkArgsDone E "")
        = Sum.inl ⟨"", true, false, [(D, sD)], [(E, multiply aE.a aE.b)]⟩ := by
      rw [streamStep_mkArgsDone, resolveArgs_mkArgsDone_empty]
      rw [show bufGet (⟨"", false, false, [(D, sD), (E, sE)], []⟩ : StreamState).argBuf E
            = some sE from by simp [bufGet, hDE]]
      rw [Option.getD_some, hokE]
      simp only []
      rw [show bufErase (⟨"", false, false, [(D, sD), (E, sE)], []⟩ : StreamState).argBuf E
            = [(D, sD)] from by simp [bufErase, hDE]]
      rfl
    have s4 : streamStep ⟨"", true, false, [(D, sD)], [(E, multiply aE.a aE.b)]⟩
          (mkArgsDone D "")
        = Sum.inl ⟨"", true, false, [],
            [(E, multiply aE.a aE.b), (D, multiply aD.a aD.b)]⟩ := by
      rw [streamStep_mkArgsDone, resolveArgs_mkArgsDone_empty]
      rw [show bufGet (⟨"", true, false, [(D, sD)], [(E, multiply aE.a aE.b)]⟩
            : StreamState).argBuf D = some sD from by simp [bufGet]]
      rw [Option.getD_some, hokD]
      simp only []
      rw [show bufErase (⟨"", true, false, [(D, sD)], [(E, multiply aE.a aE.b)]⟩
            : StreamState).argBuf D = ([] : List (String × String)) from by simp [bufErase]]
      rfl
    simp only [streamExec, s1, s2, s3, s4]

/-- C5 witness: two interleaved fragments for `call_1` and `call_2` and
the `done` markers arriving in the order `call_2`, `call_1` dispatch
`call_2` first, each with its own arguments. -/
theorem spec_C5_witness :
    streamExec initState
        [mkArgDelta "call_1" "\x7b\"a\":2,\"b\":3\x7d",
         mkArgDelta "call_2" "\x7b\"a\":4,\"b\":5\x7d",
         mkArgsDone "call_2" "", mkArgsDone "call_1" ""]
      = Sum.inl ⟨"", true, false, [],
          [("call_2", multiply 4 5), ("call_1", multiply 2 3)]⟩ :=
  (spec_C5_independent_buffers "call_1" "call_2"
      (by decide) (by decide) (by decide)).2
    "\x7b\"a\":2,\"b\":3\x7d" "\x7b\"a\":4,\"b\":5\x7d" ⟨2, 3⟩ ⟨4, 5⟩
    (by decide) (by decide)
    (by with_unfolding_all rfl) (by with_unfolding_all rfl)

/-- C6: a `function_call_arguments.delta` event with an empty call id or
empty fragment is ignored entirely — the state, including all buffers,
the accumulated text, and the follow-up flag, is unchanged. -/
theorem spec_C6_ignore_empty_delta :
    ∀ (st : StreamState) (evt : Json),
      getStr evt "type" = some "response.function_call_arguments.delta" →
      ((getStr evt "call_id").getD "" = "" ∨ (getStr evt "delta").getD "" = "") →
      streamStep st evt = Sum.inl st := by
  intro st evt hty h
  unfold streamStep
  rw [hty]
  rcases h with h | h <;> simp [h]

/-- C6 witness: a delta with an empty call id leaves the initial state
untouched. -/
theorem spec_C6_witness :
    streamStep initState (mkArgDelta "" "\x7b\"a\":6\x7d") = Sum.inl initState :=
  spec_C6_ignore_empty_delta initState (mkArgDelta "" "\x7b\"a\":6\x7d")
    rfl (Or.inl rfl)

/-- C7: a server `error` event aborts the current stream or wait
immediately with an error embedding the event itself, and the stream
result still carries all text accumulated before the error. -/
theorem spec_C7_server_error_abort :
    (∀ (st : StreamState) (evt : Json),
      getStr evt "type" = some "error" →
      streamStep st evt
        = Sum.inr ⟨st.full, st.needFollowUp, st.sent, some (.serverError evt)⟩)
    ∧ (∀ (es : List Json) (ds : List String) (evt : Json) (rest : List Json)
        (en : ChanEnd),
      es.length = ds.length →
      (∀ p ∈ es.zip ds,
        getStr p.1 "type" = some "response.text.delta"
          ∧ getStr p.1 "delta" = some p.2) →
      getStr evt "type" = some "error" →
      streamAssistantTextFromChan (es ++ evt :: rest) en
        = ⟨strJoin ds, false, [], some (.serverError evt)⟩)
    ∧ (∀ (pre : List Json) (evt : Json) (rest : List Json) (en : ChanEnd)
        (t : String),
      (∀ e ∈ pre,
        (getStr e "type").getD "" ≠ "error" ∧ (getStr e "type").getD "" ≠ t) →
      getStr evt "type" = some "error" →
      waitForEventTypeFromChan (pre ++ evt :: rest) en t
        = some (.serverError evt)) := by
  refine ⟨streamStep_errorEvt, ?_, ?_⟩
  · intro es ds evt rest en hlen hpt he
    obtain ⟨pr, hex⟩ := streamExec_textDeltas es ds initState hlen hpt
    unfold streamAssistantTextFromChan
    rw [streamExec_append, hex]
    simp only [streamExec, streamStep_errorEvt _ _ he]
    rfl
  · intro pre evt rest en t hpre he
    rw [waitFor_skip pre (evt :: rest) en t hpre]
    simp [waitForEventTypeFromChan, he]

/-- C7 witness: an error event at the head of the stream aborts it with
the event embedded in the failure and no accumulated text lost. -/
theorem spec_C7_witness :
    streamStep initState (mkErrorEvt "boom")
      = Sum.inr ⟨"", false, [], some (.serverError (mkErrorEvt "boom"))⟩ :=
  spec_C7_server_error_abort.1 initState (mkErrorEvt "boom") rfl

/-- C8: queue closure before a terminal marker yields the dedicated
end-of-stream error, and the three failure causes — closure, timeout, and
a server error event — are pairwise distinguishable results, both for the
streamer and for the wait loop. -/
theorem spec_C8_distinct_failures :
    ∀ (ds : List String) (evt : Json) (en : ChanEnd) (t : String),
      getStr evt "type" = some "error" →
      (streamAssistantTextFromChan (ds.map mkTextDelta) ChanEnd.closed).err
          = some .channelClosed
      ∧ (streamAssistantTextFromChan (ds.map mkTextDelta) ChanEnd.timeout).err
          = some .timeout
      ∧ (streamAssistantTextFromChan (ds.map mkTextDelta ++ [evt]) en).err
          = some (.serverError evt)
      ∧ StreamErr.channelClosed ≠ StreamErr.timeout
      ∧ StreamErr.channelClosed ≠ StreamErr.serverError evt
      ∧ StreamErr.timeout ≠ StreamErr.serverError evt
      ∧ waitForEventTypeFromChan [] ChanEnd.closed t = some (.closed t)
      ∧ waitForEventTypeFromChan [] ChanEnd.timeout t = some (.timeout t)
      ∧ WaitErr.closed t ≠ WaitErr.timeout t
      ∧ WaitErr.closed t ≠ WaitErr.serverError evt
      ∧ WaitErr.timeout t ≠ WaitErr.serverError evt := by
  intro ds evt en t he
  obtain ⟨pr, hex⟩ := streamExec_mkTextDeltas ds initState
  refine ⟨?_, ?_, ?_, by simp, by simp, by simp, rfl, rfl, by simp, by simp, by simp⟩
  · unfold streamAssistantTextFromChan
    rw [hex]
    rfl
  · unfold streamAssistantTextFromChan
    rw [hex]
    rfl
  · unfold streamAssistantTextFromChan
    rw [streamExec_append, hex]
    simp only [streamExec, streamStep_errorEvt _ _ he]

/-- C8 witness: with one pending text delta and no terminal marker, queue
closure reports the end-of-stream error. -/
theorem spec_C8_witness :
    (streamAssistantTextFromChan [mkTextDelta "Hi"] ChanEnd.closed).err
      = some StreamErr.channelClosed :=
  (spec_C8_distinct_failures ["Hi"] (mkErrorEvt "boom") ChanEnd.closed
    "conversation.item.created" rfl).1

/-- C9: the reader treats a frame that fails to decode as non-fatal — it
reports a decoding error and keeps processing, publishing no event for
that frame — while a receive failure reports its error and terminates the
loop with both queues closed and no further events produced; a frame that
decodes publishes exactly its event. -/
theorem spec_C9_reader_error_policy :
    (∀ (d m : String) (rest : List Frame),
      decodeEvent d = .error m →
      startReader (Frame.msg d :: rest)
        = ⟨(startReader rest).events,
           .decodeError m :: (startReader rest).errs,
           (startReader rest).closed⟩)
    ∧ (∀ (d : String) (evt : Json) (rest : List Frame),
      decodeEvent d = .ok evt →
      startReader (Frame.msg d :: rest)
        = ⟨evt :: (startReader rest).events,
           (startReader rest).errs,
           (startReader rest).closed⟩)
    ∧ (∀ (e : String) (rest : List Frame),
      startReader (Frame.recvFail e :: rest) = ⟨[], [.recvError e], true⟩) := by
  refine ⟨?_, ?_, fun e rest => rfl⟩
  · intro d m rest h
    simp [startReader, h]
  · intro d evt rest h
    simp [startReader, h]

/-- C9 witness: the undecodable frame `oops` yields one decoding error,
no event, and a reader that is still running. -/
theorem spec_C9_witness :
    startReader [Frame.msg "oops"]
      = ⟨[], [ReadErr.decodeError "reader json unmarshal failed"], false⟩ :=
  spec_C9_reader_error_policy.1 "oops" "reader json unmarshal failed" [] rfl

/-- C10: a `done` event whose call id has no buffer entry and which
carries no non-empty explicit arguments resolves to the empty string,
which fails to parse — the cycle ends with an argument error, no tool is
dispatched, and the text accumulated so far is still returned. -/
theorem spec_C10_unbuffered_done_fails :
    (∀ (st : StreamState) (evt : Json) (C : String),
      getStr evt "type" = some "response.function_call_arguments.done" →
      (getStr evt "call_id").getD "" = C →
      (getStr evt "arguments").getD "" = "" →
      bufGet st.argBuf C = none →
      streamStep st evt
        = Sum.inr ⟨st.full, st.needFollowUp, st.sent,
            some (.badArgs "invalid JSON")⟩)
    ∧ (∀ (ds : List String) (en : ChanEnd) (c : String),
      streamAssistantTextFromChan (ds.map mkTextDelta ++ [mkArgsDone c ""]) en
        = ⟨strJoin ds, false, [], some (.badArgs "invalid JSON")⟩) := by
  constructor
  · intro st evt C hty hc ha hb
    have hres : resolveArgs st evt = "" := by
      simp [resolveArgs, ha, hc, hb]
    rw [streamStep_doneEvt st evt hty, hres]
    rfl
  · intro ds en c
    obtain ⟨pr, hex⟩ := streamExec_mkTextDeltas ds initState
    unfold streamAssistantTextFromChan
    rw [streamExec_append, hex]
    have hstep : streamStep
          (⟨initState.full ++ strJoin ds, initState.needFollowUp, pr,
            initState.argBuf, initState.sent⟩ : StreamState) (mkArgsDone c "")
        = Sum.inr ⟨initState.full ++ strJoin ds, initState.needFollowUp,
            initState.sent, some (.badArgs "invalid JSON")⟩ := by
      rw [streamStep_mkArgsDone, resolveArgs_mkArgsDone_empty]
      rfl
    simp only [streamExec, hstep]
    rfl

/-- C10 witness: a `done` event for an unknown call id with no explicit
arguments fails the cycle with an argument error and dispatches nothing. -/
theorem spec_C10_witness :
    streamStep initState (mkArgsDone "call_9" "")
      = Sum.inr ⟨"", false, [], some (StreamErr.badArgs "invalid JSON")⟩ :=
  spec_C10_unbuffered_done_fails.1 initState (mkArgsDone "call_9" "") "call_9"
    rfl rfl rfl rfl
